import Mathlib

/-!
Verification development for the Anvil 1444 chunk interface, the schematic
structure interface and the clone operation of Amulet-Core.

The definitions below are shallow embeddings of the Python source:
  - src/amulet/level/interfaces/chunk/anvil/anvil_1444.py
  - src/amulet/structure_interface/schematic/schematic.py
  - src/amulet/operations/clone.py
Machine integers are modelled as Nat/Int; numpy arrays over a 16x16x16
section are modelled as functions Fin 16 -> Fin 16 -> Fin 16 -> alpha or as
flat lists in raveled order.
-/

namespace Amulet

/-- Modelled from the spec: the Block value type (amulet/api/block.py is not
part of the excerpt).  Spec section 3: "Block: immutable value
{namespace: string, base_name: string, properties: mapping of string->scalar}.
Equality/ordering by these fields".  The property mapping is modelled as an
association list of string pairs; `nspace` stands for the Python keyword
argument `namespace` (a Lean keyword). -/
structure Block where
  nspace : String
  base_name : String
  properties : List (String × String)
deriving DecidableEq, Repr

/-- Modelled from the spec: the total order on Block values used by
`numpy.unique` when sorting palette entries — lexicographic by namespace,
base name and property list ("Equality/ordering by these fields"). -/
def blockKey (b : Block) : List Char ×ₗ List Char ×ₗ List (List Char ×ₗ List Char) :=
  toLex (b.nspace.data, toLex (b.base_name.data,
    b.properties.map fun p => toLex (p.1.data, p.2.data)))

/-- The Block total order, via the lexicographic key. -/
def blockLe (a b : Block) : Prop :=
  blockKey a ≤ blockKey b

instance : DecidableRel blockLe :=
  fun a b => inferInstanceAs (Decidable (blockKey a ≤ blockKey b))

instance : IsTotal Block blockLe :=
  ⟨fun a b => le_total (blockKey a) (blockKey b)⟩

instance : IsTrans Block blockLe :=
  ⟨fun _ _ _ h h' => le_trans h h'⟩

/-- `Block(namespace="minecraft", base_name="air")`, the base palette entry of
`Anvil1444Interface._decode_blocks` (anvil_1444.py line 83). -/
def airBlock : Block :=
  ⟨"minecraft", "air", []⟩

/-- `numpy.transpose(a, (2, 0, 1))` on a 16x16x16 array, as used on decode
(anvil_1444.py lines 100-102): the result `t` satisfies `t[i,j,k] = a[j,k,i]`. -/
def transpose201 {α : Type} (a : Fin 16 → Fin 16 → Fin 16 → α) :
    Fin 16 → Fin 16 → Fin 16 → α :=
  fun i j k => a j k i

/-- `numpy.transpose(a, (1, 2, 0))` on a 16x16x16 array, as used on encode
(anvil_1444.py lines 142-144): the result `t` satisfies `t[i,j,k] = a[k,i,j]`. -/
def transpose120 {α : Type} (a : Fin 16 → Fin 16 → Fin 16 → α) :
    Fin 16 → Fin 16 → Fin 16 → α :=
  fun i j k => a k i j

/-- `Anvil1444Interface.minor_is_valid` (anvil_1444.py lines 64-66):
`1444 <= key < 1466`. -/
def minor_is_valid (key : Int) : Bool :=
  decide (1444 ≤ key ∧ key < 1466)

/-- The bits-per-entry computation of `_decode_blocks` (anvil_1444.py line 93):
`max(4, (len(section_palette) - 1).bit_length())`.  Python's `bit_length` on a
nonnegative integer is `Nat.size`; the claims only concern `n >= 1`, where the
Nat truncated subtraction agrees with Python. -/
def bitsPerEntryDecode (n : Nat) : Nat :=
  max 4 (Nat.size (n - 1))

/-- The spec's formula for the same quantity (spec section 4.3):
`b = max(4, ceil(log2(len(local_palette))))`. -/
def bitsPerEntrySpec (n : Nat) : Nat :=
  max 4 (Nat.clog 2 n)

/-- The base palette of `_decode_blocks` (anvil_1444.py line 83):
`palette = [Block(namespace="minecraft", base_name="air")]`. -/
def basePalette : List Block :=
  [airBlock]

/-- The concatenated pre-merge palette built by the decode loop
(anvil_1444.py lines 83-103): the base palette followed by every section's
local palette in iteration order (`palette += section_palette`). -/
def concatPalettes (sections : List (List Block)) : List Block :=
  basePalette ++ sections.flatten

/-- The concatenation position of section `k`: the value `len(palette)` held
when section `k`'s indices are offset (anvil_1444.py line 101). -/
def sectionOffset (sections : List (List Block)) (k : Nat) : Nat :=
  (concatPalettes (sections.take k)).length

/-- `numpy.unique(palette)` (anvil_1444.py line 105): the sorted list of the
distinct Block values of `l`. -/
def npUniqueBlocks (l : List Block) : List Block :=
  List.insertionSort blockLe l.dedup

/-- The `return_inverse` mapping of `numpy.unique(palette, return_inverse=True)`
(anvil_1444.py line 105): pre-merge offset `j` is sent to the position of the
`j`-th concatenated entry inside the deduplicated palette. -/
def npInverseBlocks (l : List Block) (j : Nat) : Nat :=
  List.indexOf (l.getD j airBlock) (npUniqueBlocks l)

/-- `Block(namespace="minecraft", base_name="acacia_door")`: a block value
sorting strictly before `airBlock` in the Block total order. -/
def doorBlock : Block :=
  ⟨"minecraft", "acacia_door", []⟩

/-- A node of the on-disk palette list (a `TAG_Compound` with a `Name` string
and a `Properties` compound, modelled as an association list). -/
structure PaletteEntry where
  name : String
  properties : List (String × String)
deriving DecidableEq, Repr

/-- Python exception kinds relevant to palette decoding: `valueError` is the
built-in `ValueError` (raised by tuple unpacking when `split` yields a single
part); `formatError` stands for the spec's distinct FormatError kind. -/
inductive PyErr where
  | valueError
  | formatError
deriving DecidableEq, Repr

/-- Splitting a character list at the first `':'`, returning the parts before
and after it, or `none` when no `':'` occurs. -/
def splitColonOnce : List Char → Option (List Char × List Char)
  | [] => none
  | c :: rest =>
    if c = ':' then some ([], rest)
    else (splitColonOnce rest).map fun p => (c :: p.1, p.2)

/-- Python `entry["Name"].value.split(":", 1)` (anvil_1444.py line 173) when it
produces the two unpacked parts; `none` when the separator is absent, in which
case the unpacking `namespace, base_name = ...` raises `ValueError`. -/
def splitNameOnce (s : String) : Option (String × String) :=
  (splitColonOnce s.data).map fun p => (String.mk p.1, String.mk p.2)

/-- Decoding one palette entry (anvil_1444.py lines 172-178): split the name on
the first `':'` into namespace and base name, keep the properties. -/
def decodePaletteEntry (e : PaletteEntry) : Except PyErr Block :=
  match splitNameOnce e.name with
  | none => .error .valueError
  | some (ns, bn) => .ok ⟨ns, bn, e.properties⟩

/-- `Anvil1444Interface._decode_palette` (anvil_1444.py lines 169-179): decode
the entries in order; the first failure aborts. -/
def decode_palette : List PaletteEntry → Except PyErr (List Block)
  | [] => .ok []
  | e :: rest =>
    match decodePaletteEntry e with
    | .error err => .error err
    | .ok b =>
      match decode_palette rest with
      | .error err => .error err
      | .ok bs => .ok (b :: bs)

/-- `Anvil1444Interface._encode_palette` (anvil_1444.py lines 181-189):
each block becomes an entry with `Name = f"{namespace}:{base_name}"` and its
properties compound. -/
def encode_palette (blockstates : List Block) : List PaletteEntry :=
  blockstates.map fun b => ⟨b.nspace ++ ":" ++ b.base_name, b.properties⟩

/-- `numpy.unique` on an array of unsigned indices (anvil_1444.py line 146):
the sorted list of the distinct values. -/
def npUniqueNat (l : List Nat) : List Nat :=
  List.insertionSort (· ≤ ·) l.dedup

/-- `numpy.transpose(blocks.get_sub_chunk(cy), (1, 2, 0)).ravel()`
(anvil_1444.py lines 142-144): the flat row-major listing of the transposed
16x16x16 sub-chunk. -/
def ravel3 (a : Fin 16 → Fin 16 → Fin 16 → Nat) : List Nat :=
  (List.finRange 16).flatMap fun i =>
    (List.finRange 16).flatMap fun j =>
      (List.finRange 16).map fun k => transpose120 a i j k

/-- The section node assembled by `_encode_blocks` (anvil_1444.py lines
156-167), prior to bit-packing: the local palette list and the remapped local
index array (`encode_long_array` lives outside the excerpt and no claim
depends on the packed words). -/
structure SectionNode where
  sub_palette : List PaletteEntry
  block_states : List Nat
deriving DecidableEq, Repr

/-- One iteration of the `_encode_blocks` loop (anvil_1444.py lines 141-167)
for a sub-chunk present in `blocks`: transpose and ravel the sub-chunk,
deduplicate it into a local palette of global indices plus remapped local
indices (`numpy.unique(..., return_inverse=True)`, line 146), encode the local
palette, and emit no node at all when that palette is the single entry named
`"minecraft:air"` (lines 150-154). -/
def encode_blocks_section (a : Fin 16 → Fin 16 → Fin 16 → Nat)
    (palette : List Block) : Option SectionNode :=
  let flat := ravel3 a
  let sub_palette_idx := npUniqueNat flat
  let remapped := flat.map fun v => List.indexOf v sub_palette_idx
  let sub_palette := encode_palette (sub_palette_idx.map fun i => palette.getD i airBlock)
  if sub_palette.length = 1 ∧ (sub_palette.getD 0 ⟨"", []⟩).name = "minecraft:air"
  then none
  else some ⟨sub_palette, remapped⟩

/-- `(v & 0xF00) >> 8`: the high nibble kept by `SchematicWriter.close`
(schematic.py line 155) for one block id. -/
def highNibble (v : Nat) : Nat :=
  v / 256 % 16

/-- The nibble packing of `SchematicWriter.close` (schematic.py lines
155-158): `add_blocks[::2] + (add_blocks[1::2] << 4)` slices axis 0 of the
3-D `self._blocks` array — shape `(X, Y, Z)` from `numpy.zeros(
selection.shape)`, filled through `box.slice` — pairing corresponding cells
of consecutive x-planes.  With `plane = Y * Z` and `ids` the C-order ravel of
the array, the byte at C-order position `j = i * plane + r` (with `i < X / 2`
and `r < plane`, so `i = j / plane` and `r = j % plane`) is
`high(ids[2 * i * plane + r]) + 16 * high(ids[(2 * i + 1) * plane + r])`.
numpy raises when `X` is odd (the `[::2]` and `[1::2]` slices differ in
shape), so the model is meaningful for even `X`, where the byte count is
`(X / 2) * plane = ids.length / 2`. -/
def packAddPlanes (plane : Nat) (ids : List Nat) : List Nat :=
  (List.range (ids.length / 2)).map fun j =>
    highNibble (ids.getD (2 * (j / plane) * plane + j % plane) 0) +
      16 * highNibble (ids.getD ((2 * (j / plane) + 1) * plane + j % plane) 0)

/-- The nibble reconstruction of `SchematicReader.__init__` (schematic.py
lines 50-56): `concatenate([[c & 0xF], [(c & 0xF0) >> 4]]).T.ravel()` —
each byte yields its low nibble then its high nibble, filling adjacent flat
positions. -/
def unpackAddNibbles (cs : List Nat) : List Nat :=
  cs.flatMap fun c => [c % 16, c / 16 % 16]

/-- The `Blocks` byte array written by `SchematicWriter.close` (schematic.py
line 153): `self._blocks & 0xFF`, in C-order ravel. -/
def writer_blocks (ids : List Nat) : List Nat :=
  ids.map fun v => v % 256

/-- The optional `AddBlocks` array written by `SchematicWriter.close`
(schematic.py lines 154-158): present only when `numpy.max(self._blocks) >
0xFF`, holding the plane-paired nibble packing of the high bits
`(self._blocks & 0xF00) >> 8`; `plane = Y * Z` is the x-plane cell count of
`selection.shape` and `ids` the C-order ravel of `self._blocks`. -/
def writer_add (plane : Nat) (ids : List Nat) : Option (List Nat) :=
  if ids.any fun v => 255 < v
  then some (packAddPlanes plane ids)
  else none

/-- The block-id reconstruction of `SchematicReader.__init__` (schematic.py
lines 48-56): the `Blocks` bytes, plus the unpacked `AddBlocks` nibbles
shifted left by 8 when `AddBlocks` is present. -/
def reader_blocks (blocksArr : List Nat) (addOpt : Option (List Nat)) : List Nat :=
  match addOpt with
  | none => blocksArr
  | some add => List.zipWith (fun b n => b + 256 * n) blocksArr (unpackAddNibbles add)

/-- A selection sub-box: position of its minimum corner and its shape. -/
structure SubBox where
  corner : Int × Int × Int
  shape : Nat × Nat × Nat
deriving DecidableEq, Repr

/-- The world's block state, as a mapping from position to block id. -/
def World : Type :=
  (Int × Int × Int) → Nat

/-- The validation errors `clone` can raise (clone.py lines 9-16): a subbox
count mismatch or a subbox shape mismatch. -/
inductive CloneError where
  | countMismatch
  | shapeMismatch
deriving DecidableEq, Repr

/-- Membership of a position in a sub-box. -/
def boxContains (b : SubBox) (p : Int × Int × Int) : Bool :=
  decide (b.corner.1 ≤ p.1 ∧ p.1 < b.corner.1 + (b.shape.1 : Int)) &&
    decide (b.corner.2.1 ≤ p.2.1 ∧ p.2.1 < b.corner.2.1 + (b.shape.2.1 : Int)) &&
    decide (b.corner.2.2 ≤ p.2.2 ∧ p.2.2 < b.corner.2.2 + (b.shape.2.2 : Int))

/-- Copying the source box onto the target box (clone.py lines 18-24): inside
the target box the block comes from the corresponding source position, read
from the current world state. -/
def copyBox (w : World) (source target : SubBox) : World :=
  fun p =>
    if boxContains target p
    then w (source.corner.1 + (p.1 - target.corner.1),
            source.corner.2.1 + (p.2.1 - target.corner.2.1),
            source.corner.2.2 + (p.2.2 - target.corner.2.2))
    else w p

/-- The copy loop of `clone` (clone.py lines 18-24), over the zipped pairs of
source and target sub-boxes in order. -/
def copyAll (w : World) : List (SubBox × SubBox) → World
  | [] => w
  | (s, t) :: rest => copyAll (copyBox w s t) rest

/-- `clone` (clone.py lines 8-24), as explicit state passing: the result of
the call (normal return or raised validation error) together with the world
state at that point.  The count check (lines 9-12) and the full shape-check
loop (lines 14-16) both run before the copy loop (lines 18-24) touches the
world. -/
def clone (w : World) (source_box target_box : List SubBox) :
    Except CloneError Unit × World :=
  if source_box.length ≠ target_box.length
  then (.error .countMismatch, w)
  else if (source_box.zip target_box).any fun p => decide (p.1.shape ≠ p.2.shape)
  then (.error .shapeMismatch, w)
  else (.ok (), copyAll w (source_box.zip target_box))

instance {ε α : Type} [DecidableEq ε] [DecidableEq α] : DecidableEq (Except ε α) :=
  fun a b =>
    match a, b with
    | .error e, .error f =>
      if h : e = f then .isTrue (by rw [h])
      else .isFalse (by intro hh; cases hh; exact h rfl)
    | .error _, .ok _ => .isFalse (by intro hh; cases hh)
    | .ok _, .error _ => .isFalse (by intro hh; cases hh)
    | .ok v, .ok w =>
      if h : v = w then .isTrue (by rw [h])
      else .isFalse (by intro hh; cases hh; exact h rfl)

end Amulet

open Amulet

theorem size_pred_eq_clog (n : Nat) (h : 1 ≤ n) : Nat.size (n - 1) = Nat.clog 2 n := by
  apply le_antisymm
  · rw [Nat.size_le]
    have := Nat.le_pow_clog (b := 2) (by norm_num) n
    omega
  · rw [← Nat.le_pow_iff_clog_le (by norm_num)]
    have := Nat.lt_size_self (n - 1)
    omega

theorem npUniqueBlocks_nodup (l : List Block) : (npUniqueBlocks l).Nodup :=
  (List.perm_insertionSort blockLe l.dedup).nodup_iff.mpr (List.nodup_dedup l)

theorem mem_npUniqueBlocks {l : List Block} {b : Block} :
    b ∈ npUniqueBlocks l ↔ b ∈ l :=
  (List.mem_insertionSort blockLe).trans List.mem_dedup

theorem npUniqueBlocks_getD_inverse (l : List Block) (j : Nat) (hj : j < l.length) :
    (npUniqueBlocks l).getD (npInverseBlocks l j) airBlock = l.getD j airBlock := by
  have hmem : l.getD j airBlock ∈ l := by
    rw [List.getD_eq_getElem l airBlock hj]
    exact List.getElem_mem hj
  have hmem' : l.getD j airBlock ∈ npUniqueBlocks l := mem_npUniqueBlocks.mpr hmem
  have hlt := List.indexOf_lt_length.mpr hmem'
  rw [npInverseBlocks, List.getD_eq_getElem _ _ hlt]
  exact List.getElem_indexOf hlt

theorem concatPalettes_decomp (sections : List (List Block)) (k : Nat)
    (hk : k < sections.length) :
    concatPalettes sections =
      concatPalettes (sections.take k) ++
        (sections.getD k [] ++ (sections.drop (k + 1)).flatten) := by
  conv_lhs => rw [concatPalettes, ← List.take_append_drop k sections]
  rw [List.flatten_append, List.drop_eq_getElem_cons hk, List.flatten_cons,
    List.getD_eq_getElem sections [] hk, concatPalettes]
  simp [List.append_assoc]

theorem concatPalettes_getD (sections : List (List Block)) (k i : Nat)
    (hi : i < (sections.getD k []).length) :
    (concatPalettes sections).getD (sectionOffset sections k + i) airBlock =
      (sections.getD k []).getD i airBlock := by
  have hk : k < sections.length := by
    by_contra hk
    rw [List.getD_eq_getElem?_getD, List.getElem?_eq_none (by omega)] at hi
    simp at hi
  rw [concatPalettes_decomp sections k hk, sectionOffset]
  rw [List.getD_eq_getElem?_getD, List.getElem?_append_right (by omega)]
  rw [Nat.add_sub_cancel_left, List.getElem?_append, if_pos hi,
    ← List.getD_eq_getElem?_getD]

theorem concatPalettes_offset_lt (sections : List (List Block)) (k i : Nat)
    (hi : i < (sections.getD k []).length) :
    sectionOffset sections k + i < (concatPalettes sections).length := by
  have hk : k < sections.length := by
    by_contra hk
    rw [List.getD_eq_getElem?_getD, List.getElem?_eq_none (by omega)] at hi
    simp at hi
  have := congrArg List.length (concatPalettes_decomp sections k hk)
  rw [List.length_append, List.length_append] at this
  rw [sectionOffset] at *
  omega

/-- C2: the 3-D axis permutation applied on decode (`numpy.transpose` with axes
`(2,0,1)`, anvil_1444.py line 100-102) is exactly inverted by the permutation
applied on encode (axes `(1,2,0)`, lines 142-144): for every 16x16x16 array
`a`, transposing by `(2,0,1)` and then by `(1,2,0)` yields `a` again. -/
theorem decode_encode_transpose_inverse {α : Type}
    (a : Fin 16 → Fin 16 → Fin 16 → α) :
    transpose120 (transpose201 a) = a :=
  rfl

/-- C8: `minor_is_valid` matches exactly the half-open range [1444, 1466):
true iff `1444 ≤ k < 1466`; in particular version 1450 is matched and versions
1466 and above are not. -/
theorem minor_is_valid_range :
    (∀ k : Int, minor_is_valid k = true ↔ 1444 ≤ k ∧ k < 1466) ∧
      minor_is_valid 1450 = true ∧ ∀ k : Int, 1466 ≤ k → minor_is_valid k = false :=
  ⟨fun k => by simp [minor_is_valid],
   by decide,
   fun k hk => by simp [minor_is_valid]; omega⟩

/-- C8 witness: version 1466 is rejected, by the range theorem at `k = 1466`. -/
theorem minor_is_valid_range_witness : minor_is_valid 1466 = false :=
  minor_is_valid_range.2.2 1466 (by decide)

/-- C4: for every palette length `n ≥ 1`, the code's
`max(4, (n-1).bit_length())` equals the spec's `max(4, ceil(log2(n)))`. -/
theorem bitsPerEntry_decode_eq_spec (n : Nat) (h : 1 ≤ n) :
    bitsPerEntryDecode n = bitsPerEntrySpec n := by
  unfold bitsPerEntryDecode bitsPerEntrySpec
  rw [size_pred_eq_clog n h]

/-- C4 witness: at `n = 5` both formulas give `max 4 3 = 4`; checked by
applying the theorem at the concrete input. -/
theorem bitsPerEntry_decode_eq_spec_witness :
    1 ≤ 5 ∧ bitsPerEntryDecode 5 = bitsPerEntrySpec 5 :=
  ⟨by decide, bitsPerEntry_decode_eq_spec 5 (by decide)⟩

/-- C1: merging the base palette with every section's local palette
(concatenation, anvil_1444.py lines 83-103, then `numpy.unique` with
`return_inverse`, lines 105-110) yields a global palette containing exactly
the distinct Block values of their union, with no duplicate values, and every
pre-merge local index, offset by its section's concatenation position, is
remapped to a global index whose entry is an equal Block value. -/
theorem palette_merge_correct (sections : List (List Block)) :
    (npUniqueBlocks (concatPalettes sections)).Nodup ∧
      (∀ b : Block, b ∈ npUniqueBlocks (concatPalettes sections) ↔
        b ∈ concatPalettes sections) ∧
      ∀ k i : Nat, i < (sections.getD k []).length →
        (npUniqueBlocks (concatPalettes sections)).getD
            (npInverseBlocks (concatPalettes sections) (sectionOffset sections k + i))
            airBlock =
          (sections.getD k []).getD i airBlock := by
  refine ⟨npUniqueBlocks_nodup _, fun b => mem_npUniqueBlocks, fun k i hi => ?_⟩
  rw [npUniqueBlocks_getD_inverse _ _ (concatPalettes_offset_lt sections k i hi)]
  exact concatPalettes_getD sections k i hi

/-- C1 witness: for the single-section input `[[doorBlock]]`, local index 0 of
section 0 is remapped to a global index holding `doorBlock` again. -/
theorem palette_merge_correct_witness :
    (0 : Nat) < 1 ∧
      (npUniqueBlocks (concatPalettes [[doorBlock]])).getD
          (npInverseBlocks (concatPalettes [[doorBlock]])
            (sectionOffset [[doorBlock]] 0 + 0)) airBlock =
        doorBlock :=
  ⟨by decide, (palette_merge_correct [[doorBlock]]).2.2 0 0 (by decide)⟩

/-- C5: global palette indices are assigned by the canonical deduplication
order over the Block total order — the merged palette is sorted under
`blockLe` and duplicate-free — not by insertion or first-seen order; in
particular, for the concrete merge of base palette `[air]` with section
palette `[acacia_door]`, index 0 of the merged global palette is not the base
palette's first entry. -/
theorem palette_merge_canonical_order :
    (∀ l : List Block,
        List.Sorted blockLe (npUniqueBlocks l) ∧ (npUniqueBlocks l).Nodup) ∧
      (npUniqueBlocks (concatPalettes [[doorBlock]])).getD 0 airBlock ≠
        (concatPalettes [[doorBlock]]).getD 0 airBlock :=
  ⟨fun l => ⟨List.sorted_insertionSort blockLe l.dedup, npUniqueBlocks_nodup l⟩,
   by decide⟩

theorem splitColonOnce_append {ns : List Char} (bn : List Char)
    (h : ':' ∉ ns) : splitColonOnce (ns ++ ':' :: bn) = some (ns, bn) := by
  induction ns with
  | nil => simp [splitColonOnce]
  | cons c rest ih =>
    have hc : c ≠ ':' := fun hc => h (hc ▸ List.mem_cons_self c rest)
    simp only [List.cons_append, splitColonOnce, if_neg hc, List.append_eq]
    rw [ih fun hm => h (List.mem_cons_of_mem c hm), Option.map_some']

theorem splitColonOnce_eq_none {cs : List Char} :
    splitColonOnce cs = none ↔ ':' ∉ cs := by
  induction cs with
  | nil => simp [splitColonOnce]
  | cons c rest ih =>
    by_cases hc : c = ':'
    · subst hc
      simp [splitColonOnce]
    · rw [List.mem_cons, not_or]
      cases hrest : splitColonOnce rest with
      | none =>
        have := ih.mp hrest
        simp [splitColonOnce, if_neg hc, hrest, Ne.symm hc, this]
      | some p =>
        have : ':' ∈ rest := by
          by_contra hn
          exact Option.noConfusion (ih.mpr hn ▸ hrest)
        simp [splitColonOnce, if_neg hc, hrest, this]

/-- C3 counterexample: the round trip is not the identity on every Block —
a namespace containing `':'` is re-split at its first `':'`.  For
`Block(namespace="a:b", base_name="c")`, encode then decode yields
`Block(namespace="a", base_name="b:c")`, not the original. -/
theorem palette_roundtrip_counterexample :
    decode_palette (encode_palette [⟨"a:b", "c", []⟩]) ≠
      Except.ok [Block.mk "a:b" "c" []] := by
  decide

/-- C3 (amended): for every Block whose namespace contains no `':'`, encoding
it into a palette node (`_encode_palette`) and decoding that node back
(`_decode_palette`) yields an equal Block: same namespace, same base name and
equal property content. -/
theorem palette_roundtrip (b : Block) (h : ':' ∉ b.nspace.data) :
    decode_palette (encode_palette [b]) = Except.ok [b] := by
  have hcolon : (":" : String).data = [':'] := rfl
  have hdata : (b.nspace ++ ":" ++ b.base_name).data =
      b.nspace.data ++ ':' :: b.base_name.data := by
    rw [String.data_append, String.data_append, hcolon, List.append_assoc]
    rfl
  simp only [encode_palette, List.map_cons, List.map_nil, decode_palette,
    decodePaletteEntry, splitNameOnce, hdata, splitColonOnce_append _ h,
    Option.map_some']

/-- C3 witness: `airBlock` round-trips through a palette node unchanged. -/
theorem palette_roundtrip_witness :
    ':' ∉ airBlock.nspace.data ∧
      decode_palette (encode_palette [airBlock]) = Except.ok [airBlock] :=
  ⟨by decide, palette_roundtrip airBlock (by decide)⟩

/-- C7 counterexample: decoding a palette whose entry `Name` lacks `':'` does
not fail with the spec's FormatError kind — the tuple unpacking of
`split(":", 1)` raises the built-in `ValueError` instead. -/
theorem decode_palette_no_colon_counterexample :
    decode_palette [⟨"air", []⟩] ≠ Except.error PyErr.formatError ∧
      decode_palette [⟨"air", []⟩] = Except.error PyErr.valueError := by
  decide

/-- C7 (amended): decoding a section palette containing an entry whose `Name`
lacks the `':'` separator fails — with the built-in `ValueError` raised by
tuple unpacking, not a FormatError — aborting the chunk decode. -/
theorem decodePaletteEntry_cases (e : PaletteEntry) :
    decodePaletteEntry e = Except.error PyErr.valueError ∨
      ∃ b, decodePaletteEntry e = Except.ok b := by
  cases hsplit : splitNameOnce e.name with
  | none => exact .inl (by rw [decodePaletteEntry, hsplit])
  | some p =>
    obtain ⟨ns, bn⟩ := p
    exact .inr ⟨_, by rw [decodePaletteEntry, hsplit]⟩

theorem decode_palette_no_colon_fails (entries : List PaletteEntry)
    (h : ∃ e ∈ entries, ':' ∉ e.name.data) :
    decode_palette entries = Except.error PyErr.valueError := by
  induction entries with
  | nil => simp at h
  | cons e rest ih =>
    rcases h with ⟨e', he', hcol⟩
    rcases List.mem_cons.mp he' with rfl | hrest
    · simp only [decode_palette, decodePaletteEntry, splitNameOnce,
        splitColonOnce_eq_none.mpr hcol, Option.map_none']
    · rcases decodePaletteEntry_cases e with hd | ⟨b, hd⟩
      · simp only [decode_palette, hd]
      · simp only [decode_palette, hd, ih ⟨e', hrest, hcol⟩]

/-- C7 witness: the amended failure theorem applied at the singleton palette
whose entry name is `"air"`. -/
theorem decode_palette_no_colon_fails_witness :
    decode_palette [(⟨"air", []⟩ : PaletteEntry)] =
      Except.error PyErr.valueError :=
  decode_palette_no_colon_fails [⟨"air", []⟩] (by decide)

theorem eq_singleton_of_nodup_allEq {l : List Nat} {c : Nat} (hnd : l.Nodup)
    (hc : c ∈ l) (hall : ∀ x ∈ l, x = c) : l = [c] := by
  cases l with
  | nil => cases hc
  | cons x t =>
    have hx : x = c := hall x (List.mem_cons_self x t)
    subst hx
    cases t with
    | nil => rfl
    | cons y u =>
      have hy : y = x := hall y (by simp)
      rw [List.nodup_cons] at hnd
      exact absurd (show x ∈ y :: u by rw [hy]; exact List.mem_cons_self x u) hnd.1

theorem npUniqueNat_allEq {l : List Nat} {c : Nat} (hc : c ∈ l)
    (hall : ∀ x ∈ l, x = c) : npUniqueNat l = [c] := by
  have hd : l.dedup = [c] :=
    eq_singleton_of_nodup_allEq (List.nodup_dedup l) (List.mem_dedup.mpr hc)
      fun x hx => hall x (List.mem_dedup.mp hx)
  rw [npUniqueNat, hd]
  rfl

/-- C6: on encode, a section whose block array reduces to the single
designated empty/air value produces no section node at all: when the section's
global indices are in range of a duplicate-free palette and every position
holds the air value, `encode_blocks_section` emits nothing. -/
theorem encode_section_air_omitted (a : Fin 16 → Fin 16 → Fin 16 → Nat)
    (palette : List Block)
    (hidx : ∀ x y z : Fin 16, a x y z < palette.length)
    (hnodup : palette.Nodup)
    (hair : ∀ x y z : Fin 16, palette.getD (a x y z) airBlock = airBlock) :
    encode_blocks_section a palette = none := by
  have hconst : ∀ x y z : Fin 16, a x y z = a 0 0 0 := by
    intro x y z
    have h1 := hair x y z
    have h2 := hair 0 0 0
    rw [List.getD_eq_getElem _ _ (hidx x y z)] at h1
    rw [List.getD_eq_getElem _ _ (hidx 0 0 0)] at h2
    exact (hnodup.getElem_inj_iff).mp (h1.trans h2.symm)
  have hmem : a 0 0 0 ∈ ravel3 a := by
    rw [ravel3]
    refine List.mem_flatMap.mpr ⟨0, List.mem_finRange 0, ?_⟩
    refine List.mem_flatMap.mpr ⟨0, List.mem_finRange 0, ?_⟩
    exact List.mem_map.mpr ⟨0, List.mem_finRange 0, rfl⟩
  have hall : ∀ v ∈ ravel3 a, v = a 0 0 0 := by
    intro v hv
    rw [ravel3] at hv
    obtain ⟨i, _, hv⟩ := List.mem_flatMap.mp hv
    obtain ⟨j, _, hv⟩ := List.mem_flatMap.mp hv
    obtain ⟨k, _, rfl⟩ := List.mem_map.mp hv
    exact hconst k i j
  have huniq : npUniqueNat (ravel3 a) = [a 0 0 0] := npUniqueNat_allEq hmem hall
  have hcond : (encode_palette [airBlock]).length = 1 ∧
      ((encode_palette [airBlock]).getD 0 ⟨"", []⟩).name = "minecraft:air" :=
    ⟨rfl, rfl⟩
  simp only [encode_blocks_section, huniq, List.map_cons, List.map_nil,
    hair 0 0 0]
  rw [if_pos hcond]

/-- C6 witness: the constant-zero section over the singleton palette
`[airBlock]` is omitted. -/
theorem encode_section_air_omitted_witness :
    encode_blocks_section (fun _ _ _ => 0) [airBlock] = none :=
  encode_section_air_omitted (fun _ _ _ => 0) [airBlock]
    (fun _ _ _ => Nat.one_pos) (List.nodup_singleton airBlock)
    (fun _ _ _ => rfl)

/-- C9 (code evaluated at the failing input): for `self._blocks` of shape
`(2, 1, 2)` — x-plane cell count `plane = Y * Z = 2` — holding the C-order
flat ids `[0x100, 0x200, 0x300, 0x400]`, the writer's axis-0 slicing packs
the bytes `[0x31, 0x42]` (pairing corresponding cells of the two x-planes),
which the reader unpacks into adjacent flat pairs, reconstructing
`[0x100, 0x300, 0x200, 0x400]`: the claimed round trip through
`SchematicWriter.close` then `SchematicReader.__init__` fails whenever the
plane size exceeds 1. -/
theorem schematic_addblocks_no_roundtrip :
    reader_blocks (writer_blocks [0x100, 0x200, 0x300, 0x400])
        (writer_add 2 [0x100, 0x200, 0x300, 0x400]) =
      [0x100, 0x300, 0x200, 0x400] ∧
      reader_blocks (writer_blocks [0x100, 0x200, 0x300, 0x400])
          (writer_add 2 [0x100, 0x200, 0x300, 0x400]) ≠
        [0x100, 0x200, 0x300, 0x400] := by
  decide

/-- C10: `clone` validates its inputs completely before mutating anything —
the subbox-count check and the per-pair shape check both run before any block
is copied, so whenever `clone` raises one of these validation errors, the
world is unchanged. -/
theorem clone_validates_before_mutation (w : World)
    (src tgt : List SubBox) (e : CloneError)
    (h : (clone w src tgt).1 = Except.error e) :
    (clone w src tgt).2 = w := by
  by_cases h1 : src.length ≠ tgt.length
  · simp only [clone, if_pos h1]
  · by_cases h2 : ((src.zip tgt).any fun p => decide (p.1.shape ≠ p.2.shape)) = true
    · simp only [clone, if_neg h1, if_pos h2]
    · simp only [clone, if_neg h1, if_neg h2] at h
      exact Except.noConfusion h

/-- C10 witness: a one-box source against an empty target raises the count
mismatch and leaves the world untouched. -/
theorem clone_validates_before_mutation_witness :
    (clone (fun _ => 0) [⟨(0, 0, 0), (1, 1, 1)⟩] []).1 =
        Except.error CloneError.countMismatch ∧
      (clone (fun _ => 0) [⟨(0, 0, 0), (1, 1, 1)⟩] []).2 = fun _ => 0 :=
  ⟨rfl, clone_validates_before_mutation (fun _ => 0) [⟨(0, 0, 0), (1, 1, 1)⟩] []
    CloneError.countMismatch rfl⟩
